import Mathlib

/-!
Verification of the agsh execution runtime (cgast/agsh).

This file is a shallow embedding in Lean 4 of the parts of the Go source
that the checked claims are about:

* `pkg/context/envelope.go` — Envelope, Metadata, Step, PayloadString;
* `pkg/context/pipeline.go` — Pipeline.Run (step loop, error policy,
  checkpointing, verification, event emission);
* `pkg/context/store.go` — the four reserved scopes of the context store;
* `pkg/events` (bus implementation) — MemoryBus Publish/History;
* `pkg/verify` (checkpoint.go) — SessionSnapshot, CaptureSnapshot;
* `pkg/verify` (assertions.go) — resolveTarget, toInt, checkCountGTE;
* `pkg/spec` (validator.go, planner.go) — ValidateSpec, GeneratePlan;
* `pkg/platform/registry.go` — matchGlob;
* `pkg/protocol` (jsonrpc.go, handler.go) — Handle, HandleRaw, ParseParams;
* `internal/sandbox/sandbox.go` — Sandbox.CheckPath.

Modelling conventions: Go `any` values that flow through payloads, stores
and JSON are modelled by the inductive `GoVal` (JSON numbers are modelled
as integers; the claims under check do not depend on fractional values).
Wall-clock time is a monotone natural-number clock threaded through the
pipeline; `time.Since` deltas are the (non-negative) clock increments the
executor reports, mirroring Go's monotonic clock reading.  I/O performed
by collaborators (the JSON parser of the standard library, the filesystem
walk of `hashDir`, `filepath.Abs`) is kept abstract: functions take the
result of the external operation as an argument.
-/

namespace Agsh

/-- Model of Go `any` values used for payloads, store values, event data
and JSON documents: nil, string, byte slice, integer number, boolean,
ordered sequence, string-keyed object (association list). -/
inductive GoVal where
  | nil
  | str (s : String)
  | bytes (b : String)
  | num (n : Int)
  | boolean (b : Bool)
  | arr (xs : List GoVal)
  | obj (kvs : List (String × GoVal))

/-- Compact JSON rendering, mirroring `encoding/json.Marshal` on the
modelled fragment (no added whitespace; strings escape the backslash,
the quote and the newline). -/
def jsonEscape (s : String) : String :=
  s.foldl (fun acc c =>
    if c = '\\' then acc ++ "\\\\"
    else if c = '"' then acc ++ "\\\""
    else if c = '\n' then acc ++ "\\n"
    else acc.push c) ""

mutual

def jsonRender : GoVal → String
  | .nil => "null"
  | .str s => "\"" ++ jsonEscape s ++ "\""
  | .bytes b => "\"" ++ jsonEscape b ++ "\""
  | .num n => toString n
  | .boolean b => if b then "true" else "false"
  | .arr xs => "[" ++ jsonRenderList xs ++ "]"
  | .obj kvs => "\x7b" ++ jsonRenderObj kvs ++ "\x7d"

def jsonRenderList : List GoVal → String
  | [] => ""
  | [x] => jsonRender x
  | x :: xs => jsonRender x ++ "," ++ jsonRenderList xs

def jsonRenderObj : List (String × GoVal) → String
  | [] => ""
  | [(k, v)] => "\"" ++ jsonEscape k ++ "\":" ++ jsonRender v
  | (k, v) :: kvs =>
      "\"" ++ jsonEscape k ++ "\":" ++ jsonRender v ++ "," ++ jsonRenderObj kvs

end

/-! ### Go string primitives

The Go `strings` functions the embedded code uses, implemented over
character lists so that every definition in this file evaluates inside
the kernel. -/

/-- Go `strings.HasPrefix`. -/
def strHasPrefix (p s : String) : Bool :=
  p.toList.isPrefixOf s.toList

/-- Go `strings.HasSuffix`. -/
def strHasSuffix (sfx s : String) : Bool :=
  sfx.toList.isSuffixOf s.toList

/-- Whether `sub` occurs in the character list (Go `strings.Contains`). -/
def hasSubstringAux (sub : List Char) : List Char → Bool
  | [] => sub.isEmpty
  | c :: rest => sub.isPrefixOf (c :: rest) || hasSubstringAux sub rest

/-- Go `strings.Contains`. -/
def strContains (s sub : String) : Bool :=
  hasSubstringAux sub.toList s.toList

/-- ASCII lower-casing of one character (the command names the planner
lowers are ASCII). -/
def charToLower (c : Char) : Char :=
  if 'A' ≤ c ∧ c ≤ 'Z' then Char.ofNat (c.toNat + 32) else c

/-- Go `strings.ToLower` on ASCII strings. -/
def strToLower (s : String) : String :=
  String.mk (s.toList.map charToLower)

/-- Go's notion of white space for `strings.TrimSpace` on the modelled
character set. -/
def isSpaceChar (c : Char) : Bool :=
  c = ' ' ∨ c = '\t' ∨ c = '\n' ∨ c = '\r'

/-- Go `strings.TrimSpace`. -/
def strTrimSpace (s : String) : String :=
  String.mk (((s.toList.dropWhile isSpaceChar).reverse.dropWhile isSpaceChar).reverse)

/-! ## Envelope and provenance (`pkg/context/envelope.go`) -/

/-- `Metadata` carries information about the envelope's content and origin. -/
structure Metadata where
  contentType : String
  tags : List (String × String)
  createdAt : Nat
  source : String
  deriving DecidableEq

/-- `Step` records a single operation in the provenance chain.
`duration` is a Go `time.Duration` (int64 nanoseconds), hence `Int`. -/
structure Step where
  command : String
  args : List String
  timestamp : Nat
  duration : Int
  status : String
  deriving DecidableEq

/-- `Envelope` is the core data type flowing through all agsh pipelines. -/
structure Envelope where
  payload : GoVal
  meta : Metadata
  provenance : List Step

/-- The zero value of `Metadata` (Go `Metadata{}`). -/
def Metadata.zero : Metadata :=
  { contentType := "", tags := [], createdAt := 0, source := "" }

/-- The zero value of `Envelope` (Go `Envelope{}`). -/
def Envelope.zero : Envelope :=
  { payload := .nil, meta := Metadata.zero, provenance := [] }

/-- `NewEnvelope` creates a new Envelope with the given payload, content
type, and source; `now` is the current time. -/
def NewEnvelope (payload : GoVal) (contentType source : String) (now : Nat) : Envelope :=
  { payload := payload
    meta := { contentType := contentType, tags := [], createdAt := now, source := source }
    provenance := [] }

/-- `AddStep` appends a provenance step to the envelope. -/
def Envelope.AddStep (e : Envelope) (step : Step) : Envelope :=
  { e with provenance := e.provenance ++ [step] }

/-- `PayloadString` returns the payload as a string if possible: the string
itself, the byte slice as a string, otherwise the JSON representation
(`json.Marshal`); a nil payload renders as "null". -/
def Envelope.PayloadString (e : Envelope) : String :=
  match e.payload with
  | .str s => s
  | .bytes b => b
  | v => jsonRender v

/-! ## Sandbox policy (`internal/sandbox/sandbox.go`) -/

/-- Sandbox configuration after `New` has resolved the configured allowed
and denied paths to absolute form. -/
structure Sandbox where
  allowedPaths : List String
  deniedPaths : List String

/-- A path equals a prefix path or lies strictly under it (Go:
`abs == p || strings.HasPrefix(abs, p+string(filepath.Separator))`). -/
def underPath (p abs : String) : Bool :=
  abs == p || strHasPrefix (p ++ "/") abs

/-- `CheckPath` validates a path against the sandbox.  The Go code first
resolves the argument with `filepath.Abs` (an OS operation involving the
current working directory); the embedding takes the already-resolved
absolute path `abs` and models the pure allow/deny decision: denied paths
are checked first (deny takes precedence), then, if no allowed paths are
configured, everything else is allowed, otherwise the path must lie under
some allowed path.  `true` means allowed (Go returns a nil error). -/
def Sandbox.CheckPath (s : Sandbox) (abs : String) : Bool :=
  if s.deniedPaths.any (fun denied => underPath denied abs) then
    false
  else if s.allowedPaths.isEmpty then
    true
  else
    s.allowedPaths.any (fun allowed => underPath allowed abs)

/-! ## Context store scopes (`pkg/context/store.go`)

The durable store is bbolt-backed; the embedding models its logical
content: one association list of key/value pairs per reserved scope
(`Put` is an upsert).  The four reserved scope buckets are pre-created on
open, so `List` on a reserved scope never fails. -/

def ScopeProject : String := "project"
def ScopeSession : String := "session"
def ScopeStep : String := "step"
def ScopeHistory : String := "history"

/-- Logical content of a `BoltStore`: the four pre-created reserved scope
buckets. -/
structure ContextStore where
  project : List (String × GoVal)
  session : List (String × GoVal)
  step : List (String × GoVal)
  history : List (String × GoVal)

/-- Upsert into an association list (bbolt `Put`). -/
def upsert (key : String) (v : GoVal) : List (String × GoVal) → List (String × GoVal)
  | [] => [(key, v)]
  | (k, w) :: rest => if k = key then (k, v) :: rest else (k, w) :: upsert key v rest

/-- `Set` is an upsert of a JSON-encoded value into the scope bucket; a
scope outside the reserved set would fail (and the pipeline discards that
error), so the model leaves the store unchanged there. -/
def ContextStore.Set (s : ContextStore) (scope key : String) (v : GoVal) : ContextStore :=
  if scope = ScopeProject then { s with project := upsert key v s.project }
  else if scope = ScopeSession then { s with session := upsert key v s.session }
  else if scope = ScopeStep then { s with step := upsert key v s.step }
  else if scope = ScopeHistory then { s with history := upsert key v s.history }
  else s

/-- `List` returns all key/value pairs of a reserved scope. -/
def ContextStore.List (s : ContextStore) (scope : String) : List (String × GoVal) :=
  if scope = ScopeProject then s.project
  else if scope = ScopeSession then s.session
  else if scope = ScopeStep then s.step
  else if scope = ScopeHistory then s.history
  else []

/-! ## Pipeline runner (`pkg/context/pipeline.go`) -/

/-- `PipelineStep` defines a single step within a pipeline. -/
structure PipelineStep where
  command : String
  args : List String
  intent : String
  onError : String
  checkpointBefore : Bool
  deriving DecidableEq

/-- `StepResult` records the outcome of a single pipeline step.  Fields
default to their Go zero values. -/
structure StepResult where
  step : PipelineStep
  output : Envelope
  error : String
  duration : Int
  status : String
  verifyPassed : Option Bool
  verifyMessage : String
  checkpointSaved : String

/-- `PipelineResult` holds the outcome of a pipeline execution. -/
structure PipelineResult where
  steps : List StepResult
  success : Bool
  output : Envelope

/-- One event published through the pipeline's `EventPublisher`
(`publishEvent(eventType, data, stepIndex, duration)`).  The
`map[string]any` data is modelled as an association list in the order the
Go literal writes its keys. -/
structure PEvent where
  etype : String
  data : List (String × GoVal)
  stepIndex : Int
  duration : Int

/-- Result of one `CommandExecutor.Execute` call: the envelope or error,
the wall-clock time the call consumed (Go measures it with a monotonic
clock, so the delta is a natural number), and the store after any side
effects the command performed through the store interface. -/
structure ExecResult where
  res : Except String Envelope
  delta : Nat
  store : Option ContextStore

/-- A `CommandExecutor` collaborator: resolves a command name and runs it
on an input envelope with access to the (possibly absent) store. -/
def Executor : Type := String → Envelope → Option ContextStore → ExecResult

/-- A `StepVerifier` collaborator: returns (passed, summary, error). -/
def Verifier : Type := Nat → Envelope → Bool × String × Option String

/-- A `Checkpointer` collaborator; `SaveCheckpoint name` returns `none`
when the save succeeded and `some msg` for an error with message `msg`. -/
def Checkpointer : Type := String → Option String

/-- `Pipeline` defines a sequence of commands to execute, with its
collaborators.  The optional event publisher is modelled by always
collecting the published events in the run outcome (a nil publisher in Go
merely drops them). -/
structure Pipeline where
  steps : List PipelineStep
  context : Option ContextStore
  executor : Option Executor
  verifier : Option Verifier
  checkpointer : Option Checkpointer

/-- Everything `Pipeline.Run` produces: the Go return values
(`PipelineResult`, error), plus the published events, the final store and
clock of the model. -/
structure RunOut where
  result : PipelineResult
  error : Option String
  events : List PEvent
  store : Option ContextStore
  clock : Nat

/-- Checkpoint name for step `i`: Go `fmt.Sprintf("step-%d-%s", i, cmd)`. -/
def cpName (i : Nat) (cmd : String) : String :=
  "step-" ++ toString i ++ "-" ++ cmd

/-- Step-scope population before executing step `i`
(`step/command`, `step/index`, and `step/intent` when non-empty). -/
def setStepScope (st : ContextStore) (step : PipelineStep) (i : Nat) : ContextStore :=
  let st := st.Set ScopeStep "command" (.str step.command)
  let st := st.Set ScopeStep "index" (.num i)
  if step.intent ≠ "" then st.Set ScopeStep "intent" (.str step.intent) else st

/-- The loop body of `Pipeline.Run`, recursing over the remaining steps.
`i` is the index of the head step, `current` the envelope flowing in,
`total` the full step count (used by the final `pipeline.end` event).
Mirrors `pipeline.go` lines 89–241; the dead assignment
`sr.Status = "skipped"` after the step result has already been appended
(line 150 of the source) has no observable effect and therefore no
counterpart here. -/
def runSteps (ex : Executor) (ver : Option Verifier) (cp : Option Checkpointer) :
    List PipelineStep → Nat → Envelope → Option ContextStore → Nat →
    List PEvent → List StepResult → Nat → RunOut
  | [], _, current, store, clock, events, acc, total =>
      { result := { steps := acc, success := true, output := current }
        error := none
        events := events ++
          [{ etype := "pipeline.end"
             data := [("success", .boolean true), ("step_count", .num total)]
             stepIndex := (total : Int) - 1, duration := 0 }]
        store := store, clock := clock }
  | step :: rest, i, current, store, clock, events, acc, total =>
      let name := cpName i step.command
      let events := if step.checkpointBefore ∧ cp.isSome then
          match cp with
          | some c =>
              match c name with
              | none =>
                  events ++ [{ etype := "checkpoint.saved"
                               data := [("step", .num i), ("name", .str name)]
                               stepIndex := i, duration := 0 }]
              | some msg =>
                  events ++ [{ etype := "checkpoint.error"
                               data := [("step", .num i), ("error", .str msg)]
                               stepIndex := i, duration := 0 }]
          | none => events
        else events
      let store := match store with
        | some st => some (setStepScope st step i)
        | none => none
      let events := events ++
        [{ etype := "command.start"
           data := [("command", .str step.command), ("args", .arr (step.args.map .str)),
                    ("intent", .str step.intent)]
           stepIndex := i, duration := 0 }]
      let er := ex step.command current store
      let duration : Int := er.delta
      let clock2 := clock + er.delta
      let store := er.store
      let sr : StepResult :=
        { step := step, output := Envelope.zero, error := "", duration := duration
          status := "", verifyPassed := none, verifyMessage := ""
          checkpointSaved := if step.checkpointBefore ∧ cp.isSome then name else "" }
      match er.res with
      | .error e =>
          let sr := { sr with status := "error", error := e }
          let acc := acc ++ [sr]
          let events := events ++
            [{ etype := "command.error"
               data := [("command", .str step.command), ("error", .str e)]
               stepIndex := i, duration := duration }]
          let onError := if step.onError = "" then "stop" else step.onError
          if onError = "skip" then
            runSteps ex ver cp rest (i + 1) current store clock2 events acc total
          else
            { result := { steps := acc, success := false, output := Envelope.zero }
              error := some ("pipeline stopped at step " ++ toString i ++
                " (" ++ step.command ++ "): " ++ e)
              events := events ++
                [{ etype := "pipeline.end"
                   data := [("success", .boolean false), ("error", .str e), ("step", .num i)]
                   stepIndex := i, duration := 0 }]
              store := store, clock := clock2 }
      | .ok out0 =>
          let output := out0.AddStep
            { command := step.command, args := step.args, timestamp := clock
              duration := duration, status := "ok" }
          let sr := { sr with status := "ok", output := output }
          match ver with
          | none =>
              let events := events ++
                [{ etype := "command.end"
                   data := [("command", .str step.command), ("status", .str "ok")]
                   stepIndex := i, duration := duration }]
              runSteps ex ver cp rest (i + 1) output store clock2 events (acc ++ [sr]) total
          | some v =>
              let vres := v i output
              let passed := vres.1
              let summary := vres.2.1
              let sr := { sr with verifyPassed := some passed
                                  verifyMessage := match vres.2.2 with
                                    | none => summary
                                    | some ve => "verification error: " ++ ve }
              let events := events ++
                [{ etype := "verify.result"
                   data := [("step", .num i), ("passed", .boolean passed),
                            ("summary", .str summary)]
                   stepIndex := i, duration := 0 }]
              if passed then
                let events := events ++
                  [{ etype := "command.end"
                     data := [("command", .str step.command), ("status", .str "ok")]
                     stepIndex := i, duration := duration }]
                runSteps ex ver cp rest (i + 1) output store clock2 events (acc ++ [sr]) total
              else
                let sr := { sr with status := "verify_failed" }
                let acc := acc ++ [sr]
                let onError := if step.onError = "" then "stop" else step.onError
                if onError = "skip" then
                  runSteps ex ver cp rest (i + 1) current store clock2 events acc total
                else
                  { result := { steps := acc, success := false, output := Envelope.zero }
                    error := some ("verification failed at step " ++ toString i ++
                      " (" ++ step.command ++ "): " ++ summary)
                    events := events ++
                      [{ etype := "pipeline.end"
                         data := [("success", .boolean false),
                                  ("verify_failure", .str summary), ("step", .num i)]
                         stepIndex := i, duration := 0 }]
                    store := store, clock := clock2 }

/-- `Pipeline.Run` executes the pipeline, passing envelopes between
steps.  Mirrors `pipeline.go` lines 73–242. -/
def Pipeline.Run (p : Pipeline) (input : Envelope) (clock : Nat) : RunOut :=
  match p.executor with
  | none =>
      { result := { steps := [], success := false, output := Envelope.zero }
        error := some "pipeline: no executor configured"
        events := [], store := p.context, clock := clock }
  | some ex =>
      runSteps ex p.verifier p.checkpointer p.steps 0 input p.context clock
        [{ etype := "pipeline.start"
           data := [("step_count", .num p.steps.length)]
           stepIndex := 0, duration := 0 }]
        [] p.steps.length

/-! ## Event bus (`pkg/events`, `MemoryBus`)

The bus also fans events out to subscriber channels with drop-on-full;
channel delivery is concurrent behaviour outside this embedding.  The
history component — the part the claims are about — is modelled exactly:
`Publish` stamps a missing timestamp and appends to the unbounded
`history` slice; `History(since)` filters by timestamp. -/

/-- A runtime event (`pkg/events.Event`). -/
structure Event where
  etype : String
  timestamp : Nat
  data : GoVal
  stepIndex : Int
  duration : Int

/-- The history component of `MemoryBus`. -/
structure MemoryBus where
  history : List Event

/-- `NewMemoryBus` starts with an empty history. -/
def NewMemoryBus : MemoryBus := { history := [] }

/-- `Publish` assigns the current time when the event's timestamp is zero
and appends the event to the history (source lines 165–174 of the bus;
the subscriber fan-out that follows does not touch the history). -/
def MemoryBus.Publish (b : MemoryBus) (e : Event) (now : Nat) : MemoryBus :=
  let e := if e.timestamp = 0 then { e with timestamp := now } else e
  { b with history := b.history ++ [e] }

/-- `History(since)` returns all stored events whose timestamp is not
before `since`, in publication order. -/
def MemoryBus.History (b : MemoryBus) (since : Nat) : List Event :=
  b.history.filter (fun e => since ≤ e.timestamp)

/-- Publish a sequence of events; publication number `k` happens at time
`now k` (the monotone wall clock is abstracted by an arbitrary time
assignment). -/
def publishAll (b : MemoryBus) (now : Nat → Nat) : List Event → Nat → MemoryBus
  | [], _ => b
  | e :: es, k => publishAll (b.Publish e (now k)) now es (k + 1)

/-! ## Checkpoint snapshots (`pkg/verify`, checkpoint manager) -/

/-- `SessionSnapshot` captures the context-store state at a point in time;
`contextState` maps scope names (in capture order) to their key/value
listings. -/
structure SessionSnapshot where
  contextState : List (String × List (String × GoVal))
  workdirHash : String
  timestamp : Nat

/-- `CaptureSnapshot` takes a snapshot of the current context store state
(source lines 172–204): it lists the scopes `project`, `session` and
`step`, includes a scope in the state only when it holds at least one
key, and computes a workdir digest only when a workdir is given.  The
digest is a filesystem walk (`hashDir`), abstracted here by the caller
passing the digest string that walk produced (empty when no workdir). -/
def CaptureSnapshot (store : ContextStore) (workdirHash : String) (now : Nat) :
    SessionSnapshot :=
  let scopes := [ScopeProject, ScopeSession, ScopeStep]
  let state := scopes.foldl (fun st scope =>
    let items := store.List scope
    if items.length > 0 then st ++ [(scope, items)] else st) []
  { contextState := state, workdirHash := workdirHash, timestamp := now }

/-! ## Verification assertions (`pkg/verify`, assertions) -/

/-- An assertion (`pkg/verify.Assertion`). -/
structure Assertion where
  type : String
  target : String
  expected : GoVal
  message : String

/-- An assertion result (`pkg/verify.AssertionResult`). -/
structure AssertionResult where
  assertion : Assertion
  passed : Bool
  actual : GoVal
  message : String

/-- `resolveTarget` extracts the value to check from the envelope based on
the target string (assertions source lines 36–55). -/
def resolveTarget (envelope : Envelope) (target : String) : String :=
  if target = "" ∨ target = "output" then envelope.PayloadString
  else if target = "output.lines" then envelope.PayloadString
  else if strHasPrefix "meta.tags." target then
    let key := target.drop "meta.tags.".length
    match envelope.meta.tags.lookup key with
    | some v => v
    | none => ""
  else if target = "meta.content_type" then envelope.meta.contentType
  else if target = "meta.source" then envelope.meta.source
  else envelope.PayloadString

/-- Integer parse of a string as `fmt.Sscanf(s, "%d", &i)` does: skip
leading spaces, optional sign, at least one digit (trailing characters
are left unconsumed and ignored). -/
def sscanfInt (s : String) : Except String Int :=
  let cs := s.toList.dropWhile (fun c => c = ' ' ∨ c = '\t' ∨ c = '\n')
  let signAndRest : Bool × List Char :=
    match cs with
    | '-' :: rest => (true, rest)
    | '+' :: rest => (false, rest)
    | rest => (false, rest)
  let digits := signAndRest.2.takeWhile Char.isDigit
  if digits.isEmpty then
    .error "expected integer"
  else
    let n : Nat := digits.foldl (fun acc c => acc * 10 + (c.toNat - '0'.toNat)) 0
    .ok (if signAndRest.1 then -(n : Int) else (n : Int))

/-- `toInt` converts the modelled numeric/string values to an int
(assertions source lines 226–241).  Go's `int`, `int64` and
integer-valued `float64` are all modelled by `GoVal.num`; every other
payload kind is a conversion error. -/
def toInt : GoVal → Except String Int
  | .num n => .ok n
  | .str s => sscanfInt s
  | _ => .error "cannot convert to int"

/-- Split a character sequence at every newline; an empty sequence is one
empty piece, so the result has one more piece than there are newlines. -/
def splitNl : List Char → List (List Char)
  | [] => [[]]
  | c :: rest =>
      let r := splitNl rest
      if c = '\n' then [] :: r
      else
        match r with
        | [] => [[c]]
        | cur :: rs => (c :: cur) :: rs

/-- Go `strings.Split(value, "\n")`: the newline-separated pieces of the
string, in order; splitting the empty string yields one empty piece. -/
def goSplitLines (s : String) : List String :=
  (splitNl s.toList).map List.asString

/-- `checkCountGTE` verifies that the line count (or array length) is at
least the expected value (assertions source lines 108–149). -/
def checkCountGTE (envelope : Envelope) (a : Assertion) : AssertionResult :=
  match toInt a.expected with
  | .error _ =>
      { assertion := a, passed := false, actual := .nil
        message := "count_gte: invalid expected value: " ++ jsonRender a.expected }
  | .ok expected =>
      let actual : Int :=
        if a.target = "output.lines" then
          (goSplitLines (resolveTarget envelope a.target)).length
        else
          match envelope.payload with
          | .arr xs => xs.length
          | _ => (goSplitLines (resolveTarget envelope a.target)).length
      let passed := decide (expected ≤ actual)
      { assertion := a, passed := passed, actual := .num actual
        message := if ¬passed ∧ a.message = "" then
            "count " ++ toString actual ++ " is less than expected " ++ toString expected
          else a.message }

/-! ## Spec model and validator (`pkg/spec`) -/

/-- `SpecMeta` contains metadata about the spec. -/
structure SpecMeta where
  name : String
  description : String
  author : String
  created : String
  tags : List String
  deriving DecidableEq

/-- `OutputSpec` describes the expected output. -/
structure OutputSpec where
  path : String
  format : String
  deriving DecidableEq

/-- `ParamDef` defines a runtime parameter. -/
structure ParamDef where
  name : String
  type : String
  default : GoVal
  description : String

/-- A success-criterion assertion as it appears in a spec
(`pkg/spec.Assertion`). -/
structure SpecAssertion where
  type : String
  target : String
  expected : GoVal
  message : String

/-- `ProjectSpec` is the declarative task specification. -/
structure ProjectSpec where
  apiVersion : String
  kind : String
  meta : SpecMeta
  goal : String
  constraints : List String
  guidelines : List String
  successCriteria : List SpecAssertion
  allowedCommands : List String
  output : OutputSpec
  params : List ParamDef

/-- A single validation failure. -/
structure ValidationError where
  field : String
  message : String
  deriving DecidableEq

/-- `validAssertionTypes` lists the recognized assertion types. -/
def isValidAssertionType (t : String) : Bool :=
  t = "not_empty" ∨ t = "contains" ∨ t = "not_contains" ∨ t = "count_gte" ∨
  t = "json_schema" ∨ t = "matches_regex" ∨ t = "llm_judge"

/-- `validateCommandPattern` checks that a command glob pattern is
well-formed: non-empty, `*`, or `namespace:command` / `namespace:*` with
a non-empty namespace. -/
def validateCommandPattern (pattern : String) : Option String :=
  if pattern = "" then some "empty command pattern"
  else if pattern = "*" then none
  else if ¬(pattern.toList.contains ':') then
    some ("invalid pattern (expected namespace:command format): " ++ pattern)
  else if pattern.toList.takeWhile (fun c => c ≠ ':') = [] then
    some ("invalid pattern (empty namespace): " ++ pattern)
  else none



/-- `ValidateSpec` checks a ProjectSpec for required fields and structural
correctness; all failures accumulate (validator source lines 41–121). -/
def ValidateSpec (spec : ProjectSpec) : List ValidationError :=
  let e1 : List ValidationError :=
    if spec.apiVersion = "" then [{ field := "apiVersion", message := "required" }]
    else if spec.apiVersion ≠ "agsh/v1" then
      [{ field := "apiVersion"
         message := "unsupported version (expected agsh/v1): " ++ spec.apiVersion }]
    else []
  let e2 : List ValidationError :=
    if spec.kind = "" then [{ field := "kind", message := "required" }]
    else if spec.kind ≠ "ProjectSpec" then
      [{ field := "kind", message := "unsupported kind (expected ProjectSpec): " ++ spec.kind }]
    else []
  let e3 : List ValidationError :=
    if spec.meta.name = "" then [{ field := "meta.name", message := "required" }] else []
  let e4 : List ValidationError :=
    if strTrimSpace spec.goal = "" then [{ field := "goal", message := "required" }] else []
  let e5 : List ValidationError :=
    (spec.allowedCommands.enum.filterMap (fun pi =>
      match validateCommandPattern pi.2 with
      | some msg => some { field := "allowed_commands[" ++ toString pi.1 ++ "]", message := msg }
      | none => none))
  let e6 : List ValidationError :=
    (spec.successCriteria.enum.filterMap (fun ai =>
      if ai.2.type = "" then
        some { field := "success_criteria[" ++ toString ai.1 ++ "].type", message := "required" }
      else if ¬isValidAssertionType ai.2.type then
        some { field := "success_criteria[" ++ toString ai.1 ++ "].type"
               message := "unknown assertion type: " ++ ai.2.type }
      else none))
  let e7 : List ValidationError :=
    ((spec.params.enum.foldl (fun acc pi =>
        let seen := acc.1
        let errs := acc.2
        if pi.2.name = "" then
          (seen, errs ++ [{ field := "params[" ++ toString pi.1 ++ "].name"
                            message := "required" }])
        else if seen.contains pi.2.name then
          (seen, errs ++ [{ field := "params[" ++ toString pi.1 ++ "].name"
                            message := "duplicate param name: " ++ pi.2.name }])
        else (seen ++ [pi.2.name], errs))
      (([] : List String), ([] : List ValidationError))).2)
  e1 ++ e2 ++ e3 ++ e4 ++ e5 ++ e6 ++ e7

/-! ## Planner (`pkg/spec`, GeneratePlan) and registry glob matching
(`pkg/platform/registry.go`) -/

/-- A single step in an execution plan. -/
structure PlanStep where
  command : String
  args : List String
  intent : String
  risk : String
  checkpointBefore : Bool
  onError : String
  deriving DecidableEq

/-- The concrete plan generated from a ProjectSpec. -/
structure ExecutionPlan where
  spec : String
  steps : List PlanStep
  estimatedRisk : String
  allowedCommands : List String
  successCriteria : List SpecAssertion
  output : OutputSpec

/-- The `CommandLister` collaborator used by the planner. -/
structure CommandLister where
  names : List String
  matchGlob : String → List String

/-- `matchGlob` from the registry: `*` matches everything, a trailing `*`
matches by prefix, anything else is a literal name. -/
def matchGlob (pattern name : String) : Bool :=
  if pattern = "*" then true
  else if strHasSuffix "*" pattern then
    strHasPrefix (pattern.dropRight 1) name
  else pattern = name

/-- The lister backed by `platform.Registry`: `MatchGlob` scans the
registered commands.  The registry stores commands in a Go map, whose
iteration order is unspecified; the embedding therefore takes the
enumeration order as the list `entries`. -/
def registryLister (entries : List String) : CommandLister :=
  { names := entries
    matchGlob := fun pattern => entries.filter (fun name => matchGlob pattern name) }

/-- `resolveAllowedCommands` expands glob patterns against the lister,
de-duplicating while preserving first occurrence; with no lister the
patterns pass through as-is (planner source lines 251–275). -/
def resolveAllowedCommands (patterns : List String) : Option CommandLister → List String
  | none => patterns
  | some lister =>
      (patterns.foldl (fun acc pattern =>
        if pattern.toList.contains '*' then
          (lister.matchGlob pattern).foldl (fun acc name =>
            if acc.contains name then acc else acc ++ [name]) acc
        else
          if acc.contains pattern then acc else acc ++ [pattern]) [])

/-- `isWriteCommand`: the lowered name contains one of the write verbs. -/
def isWriteCommand (name : String) : Bool :=
  let lower := strToLower name
  ["write", "create", "delete", "update", "post", "put", "patch"].any
    (fun verb => strContains lower verb)

/-- `classifyCommands` separates commands into read-only and write
operations, preserving input order within each class. -/
def classifyCommands (commands : List String) : List String × List String :=
  (commands.filter (fun c => ¬isWriteCommand c),
   commands.filter (fun c => isWriteCommand c))

/-- `buildSteps` creates plan steps: read steps first, then write steps
with `checkpoint_before`; `fs:write` binds the spec's output path as its
sole argument (planner source lines 306–339). -/
def buildSteps (spec : ProjectSpec) (reads writes : List String) : List PlanStep :=
  (reads.map (fun cmd =>
    { command := cmd, args := [], intent := "Gather data using " ++ cmd
      risk := "read-only", checkpointBefore := false, onError := "stop" })) ++
  (writes.map (fun cmd =>
    if cmd = "fs:write" ∧ spec.output.path ≠ "" then
      { command := cmd, args := [spec.output.path]
        intent := "Write final output to " ++ spec.output.path
        risk := "write", checkpointBefore := true, onError := "stop" }
    else
      { command := cmd, args := [], intent := "Write output using " ++ cmd
        risk := "write", checkpointBefore := true, onError := "stop" }))

/-- `GeneratePlan` produces an ExecutionPlan from a ProjectSpec, failing on
an invalid spec (planner source lines 220–246). -/
def GeneratePlan (spec : ProjectSpec) (lister : Option CommandLister) :
    Except String ExecutionPlan :=
  if ValidateSpec spec ≠ [] then
    .error "invalid spec"
  else
    let available := resolveAllowedCommands spec.allowedCommands lister
    let rw := classifyCommands available
    let steps := buildSteps spec rw.1 rw.2
    .ok { spec := spec.meta.name
          steps := steps
          estimatedRisk := toString rw.1.length ++ " read-only, " ++
            toString rw.2.length ++ " write operations"
          allowedCommands := available
          successCriteria := spec.successCriteria
          output := spec.output }

/-! ## JSON-RPC protocol handler (`pkg/protocol`) -/

/-- Standard and application JSON-RPC error codes. -/
def CodeParseError : Int := -32700
def CodeInvalidRequest : Int := -32600
def CodeMethodNotFound : Int := -32601
def CodeInvalidParams : Int := -32602

/-- A JSON-RPC 2.0 request.  `id` is `any` in Go (string, int or absent);
`params` is the raw message, absent when the key is missing. -/
structure Request where
  jsonrpc : String
  id : Option GoVal
  method : String
  params : Option GoVal

/-- A JSON-RPC 2.0 error object. -/
structure RpcError where
  code : Int
  message : String
  data : Option GoVal

/-- A JSON-RPC 2.0 response. -/
structure Response where
  jsonrpc : String
  id : Option GoVal
  result : Option GoVal
  error : Option RpcError

/-- `NewErrorResponse` creates an error response. -/
def NewErrorResponse (id : Option GoVal) (code : Int) (message : String)
    (data : Option GoVal) : Response :=
  { jsonrpc := "2.0", id := id, result := none
    error := some { code := code, message := message, data := data } }

/-- `NewResponse` creates a successful response. -/
def NewResponse (id : Option GoVal) (result : Option GoVal) : Response :=
  { jsonrpc := "2.0", id := id, result := result, error := none }

/-- A registered handler function over the (raw) params. -/
def HandlerFunc : Type := Option GoVal → Except RpcError (Option GoVal)

/-- The method registry of `protocol.Handler`. -/
def Handler : Type := List (String × HandlerFunc)

/-- `Handle` processes a single JSON-RPC request (handler source lines
33–57): a version other than "2.0" is an invalid request; an unknown
method is method-not-found; otherwise the registered function runs. -/
def Handler.Handle (h : Handler) (req : Request) : Response :=
  if req.jsonrpc ≠ "2.0" then
    NewErrorResponse req.id CodeInvalidRequest "invalid jsonrpc version" none
  else
    match h.lookup req.method with
    | none => NewErrorResponse req.id CodeMethodNotFound
        ("method not found: " ++ req.method) none
    | some fn =>
        match fn req.params with
        | .error rpcErr =>
            { jsonrpc := "2.0", id := req.id, result := none, error := some rpcErr }
        | .ok result => NewResponse req.id result

/-- `HandleRaw` parses raw bytes as a request and processes it.  The
`json.Unmarshal` call is the standard library; the embedding takes its
outcome: `.error e` when the bytes were not valid JSON for a request,
`.ok req` otherwise.  A parse failure responds with `ParseError` and a
null id. -/
def Handler.HandleRaw (h : Handler) (parsed : Except String Request) : Response :=
  match parsed with
  | .error e => NewErrorResponse none CodeParseError ("parse error: " ++ e) none
  | .ok req => h.Handle req

/-- `ParseParams` unmarshals JSON-RPC params into a typed struct: missing
or `null` params yield the zero value of the type; a structural mismatch
yields `InvalidParams`.  The typed struct is abstracted by its
`json.Unmarshal` decoder `decode` (returning `none` exactly on structural
mismatch) and its zero value `zero`. -/
def ParseParams {α : Type} (decode : GoVal → Option α) (zero : α)
    (params : Option GoVal) : Except RpcError α :=
  match params with
  | none => .ok zero
  | some .nil => .ok zero
  | some j =>
      match decode j with
      | none => .error { code := CodeInvalidParams, message := "invalid params", data := none }
      | some v => .ok v

/-! ## Concrete fixtures used by the closed evaluations -/

/-- Executor of the on-error-skip scenario of §8: `fail` always errors,
`after` always returns the payload "reached". -/
def skipScenarioExec : Executor := fun name _ st =>
  if name = "fail" then { res := .error "skip this error", delta := 1, store := st }
  else if name = "after" then
    { res := .ok (NewEnvelope (.str "reached") "text/plain" "after" 0), delta := 1, store := st }
  else { res := .error ("command not found: " ++ name), delta := 0, store := st }

/-- The on-error-skip pipeline: step `fail` with on_error=skip, then step
`after`. -/
def skipScenarioPipe : Pipeline :=
  { steps :=
      [{ command := "fail", args := [], intent := "", onError := "skip",
         checkpointBefore := false },
       { command := "after", args := [], intent := "", onError := "",
         checkpointBefore := false }]
    context := none, executor := some skipScenarioExec
    verifier := none, checkpointer := none }

/-- Input envelope of the on-error-skip scenario: payload "initial". -/
def skipScenarioInput : Envelope := NewEnvelope (.str "initial") "text/plain" "test" 0

/-- An executor whose command returns a fresh envelope, discarding the
input's provenance (as `NewEnvelope` does unless a command copies it). -/
def freshExec : Executor := fun _ _ st =>
  { res := .ok (NewEnvelope (.str "fresh") "text/plain" "cmd" 0), delta := 2, store := st }

/-- A one-step pipeline over `freshExec`. -/
def freshPipe : Pipeline :=
  { steps := [{ command := "cmd", args := [], intent := "", onError := "",
                checkpointBefore := false }]
    context := none, executor := some freshExec, verifier := none, checkpointer := none }

/-- An input envelope that already carries one provenance step. -/
def provInput : Envelope :=
  { payload := .str "x", meta := Metadata.zero
    provenance := [{ command := "earlier", args := [], timestamp := 0, duration := 0,
                     status := "ok" }] }

/-- An executor that propagates the input's provenance into its output. -/
def propagatingExec : Executor := fun name env st =>
  { res := .ok { payload := .str ("out:" ++ name), meta := env.meta
                 provenance := env.provenance }
    delta := 3, store := st }

/-- A two-step pipeline over `propagatingExec`. -/
def propagatingPipe : Pipeline :=
  { steps :=
      [{ command := "a", args := [], intent := "", onError := "", checkpointBefore := false },
       { command := "b", args := [], intent := "", onError := "", checkpointBefore := false }]
    context := none, executor := some propagatingExec, verifier := none, checkpointer := none }

/-- A store holding one key in every reserved scope. -/
def fullStore : ContextStore :=
  { project := [("p", .str "vp")], session := [("s", .str "vs")]
    step := [("t", .str "vt")], history := [("h", .str "vh")] }

/-- A valid spec whose only allowed-commands pattern is the glob `ns:*`. -/
def globSpec : ProjectSpec :=
  { apiVersion := "agsh/v1", kind := "ProjectSpec"
    meta := { name := "t", description := "", author := "", created := "", tags := [] }
    goal := "g", constraints := [], guidelines := [], successCriteria := []
    allowedCommands := ["ns:*"], output := { path := "", format := "" }, params := [] }

/-- The command names of a generated plan, in order. -/
def planCommands : Except String ExecutionPlan → List String
  | .error _ => []
  | .ok p => p.steps.map (fun s => s.command)

/-- A pipeline with a checkpointed write step, used to witness the
checkpoint-name theorem. -/
def checkpointPipe (c : Checkpointer) : Pipeline :=
  { steps :=
      [{ command := "read-cmd", args := [], intent := "", onError := "",
         checkpointBefore := false },
       { command := "write-cmd", args := [], intent := "", onError := "",
         checkpointBefore := true }]
    context := none, executor := some freshExec, verifier := none
    checkpointer := some c }

/-- The checkpoint-name field a processed step result must carry:
`step-<i>-<command>` when the step checkpoints and a checkpointer is
configured, the empty string otherwise. -/
def cpSavedName (cpSome : Bool) (i : Nat) (st : PipelineStep) : String :=
  if st.checkpointBefore ∧ cpSome then cpName i st.command else ""

/-- The provenance-growth invariant of a run outcome: no error, success,
and the output's provenance is the current envelope's provenance extended
by exactly `n` entries, all with status ok and non-negative duration. -/
def ProvOK (cur : Envelope) (n : Nat) (r : RunOut) : Prop :=
  r.error = none ∧ r.result.success = true ∧
  ∃ tail, r.result.output.provenance = cur.provenance ++ tail ∧
    tail.length = n ∧ ∀ s ∈ tail, s.status = "ok" ∧ 0 ≤ s.duration

/-- The recorded step results correspond one-to-one, in order, to the
processed prefix of the pipeline's steps, starting at index `i`: each
result's `step` field is the pipeline step and its `checkpointSaved`
field is `cpSavedName` at its index. -/
def StepsMatch (c : Bool) : Nat → List StepResult → List PipelineStep → Prop
  | _, [], _ => True
  | i, sr :: srs, st :: sts =>
      sr.step = st ∧ sr.checkpointSaved = cpSavedName c i st ∧ StepsMatch c (i + 1) srs sts
  | _, _ :: _, [] => False

/-! ## Theorems -/

/-- C7: For every input envelope, running a pipeline with zero steps
succeeds as identity: the result has success=true, an empty step-result
list, and an output envelope equal to the input envelope (given the
configured executor the runner requires). -/
theorem empty_pipeline_identity (ex : Executor) (ctx : Option ContextStore)
    (ver : Option Verifier) (cp : Option Checkpointer) (input : Envelope) (clock : Nat) :
    (Pipeline.Run
        { steps := [], context := ctx, executor := some ex, verifier := ver,
          checkpointer := cp } input clock).error = none ∧
    (Pipeline.Run
        { steps := [], context := ctx, executor := some ex, verifier := ver,
          checkpointer := cp } input clock).result.success = true ∧
    (Pipeline.Run
        { steps := [], context := ctx, executor := some ex, verifier := ver,
          checkpointer := cp } input clock).result.steps = [] ∧
    (Pipeline.Run
        { steps := [], context := ctx, executor := some ex, verifier := ver,
          checkpointer := cp } input clock).result.output = input := by
  refine ⟨rfl, rfl, rfl, rfl⟩

/-- C8: `CheckPath` allows a resolved absolute path exactly when the path
neither equals nor lies under any denied prefix, and either no allowed
prefixes are configured or it equals or lies under some allowed prefix
(deny takes precedence over allow). -/
theorem check_path_spec (s : Sandbox) (abs : String) :
    s.CheckPath abs = true ↔
      ((∀ d ∈ s.deniedPaths, ¬(abs = d ∨ strHasPrefix (d ++ "/") abs = true)) ∧
       (s.allowedPaths = [] ∨
        ∃ a ∈ s.allowedPaths, abs = a ∨ strHasPrefix (a ++ "/") abs = true)) := by
  unfold Sandbox.CheckPath underPath
  split
  case isTrue h =>
    simp only [List.any_eq_true, Bool.or_eq_true, beq_iff_eq] at h
    obtain ⟨d, hd, hud⟩ := h
    constructor
    · intro hf
      exact absurd hf (by simp)
    · intro hand
      exact absurd hud (hand.1 d hd)
  case isFalse h =>
    simp only [List.any_eq_true, Bool.or_eq_true, beq_iff_eq, not_exists, not_and,
      not_or] at h
    have hden : ∀ d ∈ s.deniedPaths, ¬(abs = d ∨ strHasPrefix (d ++ "/") abs = true) := by
      intro d hd hor
      rcases hor with h1 | h2
      · exact (h d hd).1 h1
      · exact (h d hd).2 h2
    split
    case isTrue hempty =>
      simp only [List.isEmpty_iff] at hempty
      constructor
      · intro _
        exact ⟨hden, Or.inl hempty⟩
      · intro _
        rfl
    case isFalse hne =>
      simp only [List.isEmpty_iff] at hne
      constructor
      · intro hex
        simp only [List.any_eq_true, Bool.or_eq_true, beq_iff_eq] at hex
        exact ⟨hden, Or.inr hex⟩
      · intro hand
        simp only [List.any_eq_true, Bool.or_eq_true, beq_iff_eq]
        rcases hand.2 with hnil | hex
        · exact absurd hnil hne
        · exact hex

/-- C1: Evaluating `Pipeline.Run` on the §8 on-error-skip scenario (step
`fail` with on_error=skip, then step `after`, input "initial"): the run
carries the previous envelope forward, keeps success=true and ends with
payload "reached", but the recorded result of the failed step has status
"error" — not "skipped" as the specification states: the source assigns
`sr.Status = "skipped"` only after the step result was already appended
by value, so the assignment is lost. -/
theorem skip_step_recorded_as_error :
    ((skipScenarioPipe.Run skipScenarioInput 0).result.steps.map
      (fun sr => sr.status)) = ["error", "ok"] ∧
    (skipScenarioPipe.Run skipScenarioInput 0).result.success = true ∧
    (skipScenarioPipe.Run skipScenarioInput 0).result.output.payload = .str "reached" ∧
    (skipScenarioPipe.Run skipScenarioInput 0).error = none := by
  refine ⟨rfl, rfl, rfl, rfl⟩

/-- The history after publishing a list of events grows by exactly that
list (length and the type/data projection), whatever the prior history
and the clock. -/
theorem publishAll_history_key (es : List Event) : ∀ (b : MemoryBus) (now : Nat → Nat)
    (k : Nat),
    (publishAll b now es k).history.map (fun e => (e.etype, e.data)) =
      b.history.map (fun e => (e.etype, e.data)) ++ es.map (fun e => (e.etype, e.data)) := by
  induction es with
  | nil =>
      intro b now k
      simp [publishAll]
  | cons e es ih =>
      intro b now k
      simp only [publishAll, ih, MemoryBus.Publish, List.map_append, List.map_cons,
        List.map_nil, List.append_assoc]
      split
      · simp
      · simp

/-- The history length after publishing a list of events grows by exactly
the list's length. -/
theorem publishAll_history_length (es : List Event) : ∀ (b : MemoryBus) (now : Nat → Nat)
    (k : Nat),
    (publishAll b now es k).history.length = b.history.length + es.length := by
  induction es with
  | nil =>
      intro b now k
      simp [publishAll]
  | cons e es ih =>
      intro b now k
      rw [publishAll, ih]
      simp [MemoryBus.Publish]
      omega

/-- `History 0` (history since minus infinity) returns the full stored
history: modelled timestamps are naturals. -/
theorem history_zero_eq (b : MemoryBus) : b.History 0 = b.history := by
  unfold MemoryBus.History
  induction b.history with
  | nil => rfl
  | cons e es ih => simp [List.filter, ih]

/-- C2 (amended): the bus history is unbounded and complete — publishing
any sequence of N events onto a fresh bus leaves `history(-∞)` holding
exactly those N events in publication order (identified by their
type/data payload); the capacity/eviction clause of the claim has no
counterpart in the code. -/
theorem bus_history_complete (es : List Event) (now : Nat → Nat) :
    ((publishAll NewMemoryBus now es 0).History 0).length = es.length ∧
    ((publishAll NewMemoryBus now es 0).History 0).map (fun e => (e.etype, e.data)) =
      es.map (fun e => (e.etype, e.data)) := by
  have hkey := publishAll_history_key es NewMemoryBus now 0
  have hz := history_zero_eq (publishAll NewMemoryBus now es 0)
  have hlen : (publishAll NewMemoryBus now es 0).history.length = es.length := by
    have := congrArg List.length hkey
    simpa [NewMemoryBus] using this
  refine ⟨by rw [hz]; exact hlen, by rw [hz]; simpa [NewMemoryBus] using hkey⟩

/-- C2 counterexample: no bound on the stored history exists — for every
candidate capacity C, publishing C+1 events stores C+1 history entries,
refuting "the stored history never exceeds the capacity" (`NewMemoryBus`
takes no capacity and `Publish` never evicts). -/
theorem bus_history_has_no_capacity :
    ¬ ∃ C : Nat, ∀ es : List Event,
      ((publishAll NewMemoryBus (fun k => k + 1) es 0).history.length ≤ C) := by
  rintro ⟨C, h⟩
  have hC := h (List.replicate (C + 1)
      { etype := "agent.message", timestamp := 0, data := .nil, stepIndex := 0,
        duration := 0 })
  rw [publishAll_history_length] at hC
  simp [NewMemoryBus] at hC

/-- C3 counterexample: on a store holding one key in every reserved scope
(including `history`), the captured snapshot has no entry for the
`history` scope — `CaptureSnapshot` only lists `project`, `session` and
`step`, so the snapshot is not content-complete over all four scopes. -/
theorem capture_snapshot_misses_history :
    fullStore.history.length = 1 ∧
    (CaptureSnapshot fullStore "" 0).contextState.lookup ScopeHistory = none ∧
    (CaptureSnapshot fullStore "" 0).contextState.lookup ScopeProject =
      some [("p", .str "vp")] := by
  refine ⟨rfl, rfl, rfl⟩

/-- C3 (amended): for every context store, the captured snapshot contains
an entry for each of the scopes `project`, `session` and `step` that
holds at least one key (with exactly that scope's contents), and never an
entry for the `history` scope, which `CaptureSnapshot` does not list. -/
theorem capture_snapshot_scopes (store : ContextStore) (wh : String) (now : Nat) :
    ((CaptureSnapshot store wh now).contextState.lookup ScopeHistory = none) ∧
    (store.project ≠ [] →
      (CaptureSnapshot store wh now).contextState.lookup ScopeProject = some store.project) ∧
    (store.session ≠ [] →
      (CaptureSnapshot store wh now).contextState.lookup ScopeSession = some store.session) ∧
    (store.step ≠ [] →
      (CaptureSnapshot store wh now).contextState.lookup ScopeStep = some store.step) := by
  unfold CaptureSnapshot ContextStore.List
  simp only [ScopeProject, ScopeSession, ScopeStep, ScopeHistory, List.foldl]
  norm_num
  rcases hp : store.project with _ | ⟨p0, ps⟩ <;>
    rcases hs : store.session with _ | ⟨s0, ss⟩ <;>
    rcases ht : store.step with _ | ⟨t0, ts⟩ <;>
      simp [List.lookup] <;>
      (intro a b h heq
       subst heq
       simp_all)

/-- C3 witness: on the all-scopes-populated store, the amended theorem
yields the concrete snapshot entries. -/
theorem capture_snapshot_scopes_witness :
    (CaptureSnapshot fullStore "" 0).contextState.lookup ScopeHistory = none ∧
    (CaptureSnapshot fullStore "" 0).contextState.lookup ScopeProject =
      some fullStore.project ∧
    (CaptureSnapshot fullStore "" 0).contextState.lookup ScopeSession =
      some fullStore.session ∧
    (CaptureSnapshot fullStore "" 0).contextState.lookup ScopeStep =
      some fullStore.step := by
  have h := capture_snapshot_scopes fullStore "" 0
  exact ⟨h.1, h.2.1 (by simp [fullStore]), h.2.2.1 (by simp [fullStore]),
    h.2.2.2 (by simp [fullStore])⟩

/-- C9: `count_gte` semantics.  For target `output.lines` the count is the
number of newline-split pieces of the target string and the check passes
exactly when that count is at least the (coerced) expected value; an
empty payload yields count 1 (a single empty line), so the check fails
unless expected ≤ 1; an array payload with any other target counts the
array's length. -/
theorem count_gte_semantics (env : Envelope) (a : Assertion) (n : Int) :
    (a.target = "output.lines" → toInt a.expected = .ok n →
      (checkCountGTE env a).passed =
        decide (n ≤ ((goSplitLines env.PayloadString).length : Int))) ∧
    (env.payload = .nil → a.target = "output.lines" → toInt a.expected = .ok n →
      ((goSplitLines env.PayloadString).length = 1 ∧
       ((checkCountGTE env a).passed = true ↔ n ≤ 1))) ∧
    (∀ xs, a.target ≠ "output.lines" → env.payload = .arr xs →
      toInt a.expected = .ok n →
      (checkCountGTE env a).passed = decide (n ≤ (xs.length : Int))) := by
  refine ⟨?_, ?_, ?_⟩
  · intro htgt hexp
    unfold checkCountGTE
    rw [hexp]
    simp only [htgt, if_pos rfl, resolveTarget]
    simp [htgt]
  · intro hpay htgt hexp
    have hps : env.PayloadString = "null" := by
      unfold Envelope.PayloadString
      rw [hpay]
      rfl
    have hone : (goSplitLines env.PayloadString).length = 1 := by
      rw [hps]
      rfl
    refine ⟨hone, ?_⟩
    unfold checkCountGTE
    rw [hexp]
    simp only [htgt, if_pos rfl, resolveTarget]
    simp [htgt, hps]
    have hnl : (goSplitLines "null").length = 1 := rfl
    rw [hnl]
    constructor
    · intro hle
      omega
    · intro hle
      omega
  · intro xs htgt hpay hexp
    unfold checkCountGTE
    rw [hexp, hpay]
    simp [htgt]

/-- C9 witness: on an empty (nil) payload with target `output.lines` and
expected 2 the check fails (count 1 < 2), and on a three-element array
payload with empty target and expected 3 it passes. -/
theorem count_gte_semantics_witness :
    ((goSplitLines Envelope.zero.PayloadString).length = 1 ∧
     ((checkCountGTE Envelope.zero
        { type := "count_gte", target := "output.lines", expected := .num 2,
          message := "" }).passed = true ↔ (2 : Int) ≤ 1)) ∧
    (checkCountGTE
        { payload := .arr [.str "a", .str "b", .str "c"], meta := Metadata.zero,
          provenance := [] }
        { type := "count_gte", target := "", expected := .num 3,
          message := "" }).passed = decide ((3 : Int) ≤ (3 : Nat)) := by
  constructor
  · exact (count_gte_semantics Envelope.zero
      { type := "count_gte", target := "output.lines", expected := .num 2, message := "" }
      2).2.1 rfl rfl rfl
  · exact (count_gte_semantics
      { payload := .arr [.str "a", .str "b", .str "c"], meta := Metadata.zero,
        provenance := [] }
      { type := "count_gte", target := "", expected := .num 3, message := "" }
      3).2.2 [.str "a", .str "b", .str "c"] (by decide) rfl rfl

/-- C6: JSON-RPC error mapping.  A raw request that does not parse as JSON
yields a ParseError (-32700) response with a null id; a parsed request
whose jsonrpc field is not "2.0" yields InvalidRequest (-32600) with the
request id; an unregistered method yields MethodNotFound (-32601) with
the request id; and for every typed parameter struct, missing or null
params decode to the zero value while a structural mismatch yields
InvalidParams (-32602). -/
theorem jsonrpc_error_mapping (h : Handler) :
    (∀ e : String,
      (h.HandleRaw (.error e)).error =
        some { code := CodeParseError, message := "parse error: " ++ e, data := none } ∧
      (h.HandleRaw (.error e)).id = none) ∧
    (∀ req : Request, req.jsonrpc ≠ "2.0" →
      (h.Handle req).error =
        some { code := CodeInvalidRequest, message := "invalid jsonrpc version",
               data := none } ∧
      (h.Handle req).id = req.id) ∧
    (∀ req : Request, req.jsonrpc = "2.0" → h.lookup req.method = none →
      (h.Handle req).error =
        some { code := CodeMethodNotFound,
               message := "method not found: " ++ req.method, data := none } ∧
      (h.Handle req).id = req.id) ∧
    (∀ (α : Type) (decode : GoVal → Option α) (zero : α),
      ParseParams decode zero none = .ok zero ∧
      ParseParams decode zero (some .nil) = .ok zero ∧
      (∀ j : GoVal, j ≠ .nil → decode j = none →
        ParseParams decode zero (some j) =
          .error { code := CodeInvalidParams, message := "invalid params", data := none }) ∧
      (∀ (j : GoVal) (v : α), j ≠ .nil → decode j = some v →
        ParseParams decode zero (some j) = .ok v)) := by
  refine ⟨?_, ?_, ?_, ?_⟩
  · intro e
    exact ⟨rfl, rfl⟩
  · intro req hver
    unfold Handler.Handle
    rw [if_pos hver]
    exact ⟨rfl, rfl⟩
  · intro req hver hmeth
    unfold Handler.Handle
    rw [if_neg (by simp [hver]), hmeth]
    exact ⟨rfl, rfl⟩
  · intro α decode zero
    refine ⟨rfl, rfl, ?_, ?_⟩
    · intro j hj hdec
      unfold ParseParams
      cases j <;> simp_all
    · intro j v hj hdec
      unfold ParseParams
      cases j <;> simp_all

/-- C6 witness: the error mapping evaluated on an empty handler registry —
a parse failure, a version-1.0 request, an unknown method, and a decoder
that rejects everything. -/
theorem jsonrpc_error_mapping_witness :
    (Handler.HandleRaw [] (.error "unexpected end of JSON input")).id = none ∧
    (Handler.Handle []
        { jsonrpc := "1.0", id := some (.num 1), method := "test", params := none }).error =
      some { code := CodeInvalidRequest, message := "invalid jsonrpc version",
             data := none } ∧
    (Handler.Handle []
        { jsonrpc := "2.0", id := some (.num 1), method := "nope", params := none }).error =
      some { code := CodeMethodNotFound, message := "method not found: nope",
             data := none } ∧
    ParseParams (fun _ => (none : Option Nat)) 0 (some (.str "not an object")) =
      .error { code := CodeInvalidParams, message := "invalid params", data := none } := by
  have t := jsonrpc_error_mapping []
  refine ⟨(t.1 "unexpected end of JSON input").2, ?_, ?_, ?_⟩
  · exact (t.2.1 { jsonrpc := "1.0", id := some (.num 1), method := "test", params := none }
      (by decide)).1
  · exact (t.2.2.1 { jsonrpc := "2.0", id := some (.num 1), method := "nope", params := none }
      rfl rfl).1
  · exact (t.2.2.2 Nat (fun _ => none) 0).2.2.1 (.str "not an object") (by intro hc; cases hc) rfl

/-- C4 counterexample: a registry-backed lister enumerates its Go map in
an unspecified order; two enumerations of the same command universe
(`ns:a`, `ns:b` — a permutation, i.e. the same set) make `GeneratePlan`
emit the same steps in different orders, so the plan's Steps is not a
function of the spec and the unordered command universe. -/
theorem plan_depends_on_enumeration_order :
    List.Perm ["ns:a", "ns:b"] ["ns:b", "ns:a"] ∧
    planCommands (GeneratePlan globSpec (some (registryLister ["ns:a", "ns:b"]))) =
      ["ns:a", "ns:b"] ∧
    planCommands (GeneratePlan globSpec (some (registryLister ["ns:b", "ns:a"]))) =
      ["ns:b", "ns:a"] := by
  refine ⟨List.Perm.swap "ns:b" "ns:a" [], rfl, rfl⟩

/-- C4 (amended): `GeneratePlan` is deterministic in the spec and the
lister's answers — two listers that return identical name sequences for
every pattern produce identical plans (in particular, replanning against
a lister with a fixed enumeration order reproduces the same ordered step
list; only the registry's unordered map enumeration breaks step-order
stability). -/
theorem plan_deterministic_in_lister (spec : ProjectSpec) (l1 l2 : CommandLister)
    (h : ∀ pattern, l1.matchGlob pattern = l2.matchGlob pattern) :
    GeneratePlan spec (some l1) = GeneratePlan spec (some l2) := by
  have hfun : l1.matchGlob = l2.matchGlob := funext h
  have hres : ∀ patterns,
      resolveAllowedCommands patterns (some l1) = resolveAllowedCommands patterns (some l2) := by
    intro patterns
    simp only [resolveAllowedCommands, hfun]
  unfold GeneratePlan
  rw [hres]

/-- C4 witness: two invocations against the same fixed-order lister yield
the same plan. -/
theorem plan_deterministic_in_lister_witness :
    GeneratePlan globSpec (some (registryLister ["ns:a", "ns:b"])) =
      GeneratePlan globSpec (some (registryLister ["ns:a", "ns:b"])) :=
  plan_deterministic_in_lister globSpec (registryLister ["ns:a", "ns:b"])
    (registryLister ["ns:a", "ns:b"]) (fun _ => rfl)

/-- C5 counterexample: a successful one-step pipeline whose command
returns a fresh envelope (as `NewEnvelope` does) yields an output with
exactly one provenance entry even though the input already carried one —
`1 ≠ 1 + 1`, so provenance growth does not hold for every successful
run. -/
theorem provenance_growth_fails_without_propagation :
    (freshPipe.Run provInput 0).result.success = true ∧
    (freshPipe.Run provInput 0).error = none ∧
    provInput.provenance.length = 1 ∧
    freshPipe.steps.length = 1 ∧
    (freshPipe.Run provInput 0).result.output.provenance.length = 1 ∧
    (freshPipe.Run provInput 0).result.output.provenance.length ≠
      provInput.provenance.length + freshPipe.steps.length := by
  refine ⟨rfl, rfl, rfl, rfl, rfl, by decide⟩

/-- Extending the provenance-growth invariant across one appended
provenance entry. -/
theorem provOK_extend (cur out : Envelope) (ns : Step) (n : Nat) (r : RunOut)
    (h : ProvOK (out.AddStep ns) n r) (hprov : out.provenance = cur.provenance)
    (hst : ns.status = "ok") (hdur : 0 ≤ ns.duration) :
    ProvOK cur (n + 1) r := by
  obtain ⟨he, hs, tail, hp, hl, ha⟩ := h
  refine ⟨he, hs, ns :: tail, ?_, by simp [hl], ?_⟩
  · rw [hp]
    unfold Envelope.AddStep
    simp [hprov]
  · intro s hs2
    rcases List.mem_cons.mp hs2 with rfl | h2
    · exact ⟨hst, hdur⟩
    · exact ha s h2

/-- Invariant behind the amended provenance-growth claim: with an
executor that always succeeds and carries the input's provenance into its
output, and no verifier, the step loop appends exactly one ok-status,
non-negative-duration provenance entry per remaining step. -/
theorem runSteps_prov_growth (ex : Executor) (cp : Option Checkpointer)
    (hok : ∀ name env st, ∃ out,
      (ex name env st).res = .ok out ∧ out.provenance = env.provenance) :
    ∀ (rest : List PipelineStep) (i : Nat) (cur : Envelope)
      (store : Option ContextStore) (clock : Nat) (events : List PEvent)
      (acc : List StepResult) (total : Nat),
      ProvOK cur rest.length (runSteps ex none cp rest i cur store clock events acc total) := by
  intro rest
  induction rest with
  | nil =>
      intro i cur store clock events acc total
      exact ⟨rfl, rfl, [], by simp [runSteps], rfl, by simp⟩
  | cons step rest ih =>
      intro i cur store clock events acc total
      obtain ⟨out, hres, hprov⟩ := hok step.command cur
        (match store with
         | some st => some (setStepScope st step i)
         | none => none)
      simp only [runSteps, hres, List.length_cons]
      exact provOK_extend cur out _ rest.length _ (ih _ _ _ _ _ _ _) hprov rfl
        (Int.natCast_nonneg _)

/-- C5 (amended): for every run of an n-step pipeline without a verifier
whose executor always succeeds and carries the input envelope's
provenance into its output, the run succeeds, the output's provenance
length equals the input's provenance length plus n, the input's
provenance is preserved as a prefix, and every appended provenance step
has status "ok" and duration ≥ 0.  (The unqualified claim fails for
commands that emit fresh envelopes, as the counterexample shows; §3 of
the specification itself notes the previous envelope is discarded unless
the command propagates provenance.) -/
theorem provenance_growth_with_propagation (p : Pipeline) (ex : Executor)
    (input : Envelope) (clock : Nat)
    (hex : p.executor = some ex) (hver : p.verifier = none)
    (hok : ∀ name env st, ∃ out,
      (ex name env st).res = .ok out ∧ out.provenance = env.provenance) :
    (p.Run input clock).error = none ∧
    (p.Run input clock).result.success = true ∧
    (p.Run input clock).result.output.provenance.length =
      input.provenance.length + p.steps.length ∧
    (p.Run input clock).result.output.provenance.take input.provenance.length =
      input.provenance ∧
    ∀ s ∈ (p.Run input clock).result.output.provenance.drop input.provenance.length,
      s.status = "ok" ∧ 0 ≤ s.duration := by
  have key : ProvOK input p.steps.length
      (p.Run input clock) := by
    unfold Pipeline.Run
    rw [hex, hver]
    exact runSteps_prov_growth ex p.checkpointer hok p.steps 0 input p.context clock _ [] _
  obtain ⟨he, hs, tail, hp, hl, ha⟩ := key
  refine ⟨he, hs, ?_, ?_, ?_⟩
  · rw [hp]
    simp [hl]
  · rw [hp, List.take_left]
  · rw [hp, List.drop_left]
    exact ha

/-- C5 witness: the two-step pipeline over the provenance-propagating
executor, run on an input that already carries one provenance step. -/
theorem provenance_growth_with_propagation_witness :
    (propagatingPipe.Run provInput 0).error = none ∧
    (propagatingPipe.Run provInput 0).result.success = true ∧
    (propagatingPipe.Run provInput 0).result.output.provenance.length =
      provInput.provenance.length + propagatingPipe.steps.length ∧
    (propagatingPipe.Run provInput 0).result.output.provenance.take
      provInput.provenance.length = provInput.provenance ∧
    ∀ s ∈ (propagatingPipe.Run provInput 0).result.output.provenance.drop
      provInput.provenance.length, s.status = "ok" ∧ 0 ≤ s.duration :=
  provenance_growth_with_propagation propagatingPipe propagatingExec provInput 0 rfl rfl
    (fun _ _ _ => ⟨_, rfl, rfl⟩)

/-- Cons-step transfer for `StepsMatch`: prepending the step result that
the loop just recorded. -/
theorem stepsMatch_extend (c : Bool) (i : Nat) (sr : StepResult) (step : PipelineStep)
    (rest : List PipelineStep) (r : RunOut) (acc : List StepResult)
    (h : ∃ tail, r.result.steps = (acc ++ [sr]) ++ tail ∧ StepsMatch c (i + 1) tail rest)
    (hstep : sr.step = step) (hcp : sr.checkpointSaved = cpSavedName c i step) :
    ∃ tail, r.result.steps = acc ++ tail ∧ StepsMatch c i tail (step :: rest) := by
  obtain ⟨tail, hp, hm⟩ := h
  refine ⟨sr :: tail, ?_, hstep, hcp, hm⟩
  rw [hp]
  simp

/-- Every processed step appends exactly one step result; the recorded
results correspond index-by-index to the pipeline's steps, carrying the
step itself and the `cpSavedName` checkpoint field. -/
theorem runSteps_steps_match (ex : Executor) (ver : Option Verifier)
    (cp : Option Checkpointer) :
    ∀ (rest : List PipelineStep) (i : Nat) (cur : Envelope)
      (store : Option ContextStore) (clock : Nat) (events : List PEvent)
      (acc : List StepResult) (total : Nat),
      ∃ tail,
        (runSteps ex ver cp rest i cur store clock events acc total).result.steps =
          acc ++ tail ∧
        StepsMatch cp.isSome i tail rest := by
  intro rest
  induction rest with
  | nil =>
      intro i cur store clock events acc total
      exact ⟨[], by simp [runSteps], trivial⟩
  | cons step rest ih =>
      intro i cur store clock events acc total
      simp only [runSteps]
      generalize (ex step.command cur
          (match store with
           | some st => some (setStepScope st step i)
           | none => none)) = er
      rcases her : er.res with e | out
      · simp only [her]
        by_cases herr : (if step.onError = "" then "stop" else step.onError) = "skip"
        · simp only [if_pos herr]
          exact stepsMatch_extend _ i _ step rest _ acc (ih _ _ _ _ _ _ _) rfl rfl
        · simp only [if_neg herr]
          refine ⟨_, rfl, rfl, rfl, trivial⟩
      · simp only [her]
        match ver with
        | none =>
            exact stepsMatch_extend _ i _ step rest _ acc (ih _ _ _ _ _ _ _) rfl rfl
        | some v =>
            dsimp only
            by_cases hpass : (v i (out.AddStep
                { command := step.command, args := step.args, timestamp := clock
                  duration := (er.delta : Int), status := "ok" })).1 = true
            · simp only [if_pos hpass]
              exact stepsMatch_extend _ i _ step rest _ acc (ih _ _ _ _ _ _ _) rfl rfl
            · simp only [if_neg hpass]
              by_cases herr : (if step.onError = "" then "stop" else step.onError) = "skip"
              · simp only [if_pos herr]
                exact stepsMatch_extend _ i _ step rest _ acc (ih _ _ _ _ _ _ _) rfl rfl
              · simp only [if_neg herr]
                refine ⟨_, rfl, rfl, rfl, trivial⟩

/-- `StepsMatch` bounds the recorded tail by the remaining steps. -/
theorem stepsMatch_length_le (c : Bool) :
    ∀ (tail : List StepResult) (rest : List PipelineStep) (i : Nat),
      StepsMatch c i tail rest → tail.length ≤ rest.length := by
  intro tail
  induction tail with
  | nil => intro rest i _; simp
  | cons sr srs ih =>
      intro rest i h
      match rest with
      | [] => exact h.elim
      | st :: sts =>
          obtain ⟨-, -, hrec⟩ := h
          simpa using Nat.succ_le_succ (ih sts (i + 1) hrec)

/-- Indexing a `StepsMatch` correspondence. -/
theorem stepsMatch_get (c : Bool) :
    ∀ (tail : List StepResult) (rest : List PipelineStep) (i : Nat),
      StepsMatch c i tail rest →
      ∀ (j : Nat) (sr : StepResult) (st : PipelineStep),
        tail.get? j = some sr → rest.get? j = some st →
        sr.step = st ∧ sr.checkpointSaved = cpSavedName c (i + j) st := by
  intro tail
  induction tail with
  | nil =>
      intro rest i _ j sr st hsr
      exact absurd hsr (by simp)
  | cons sr0 srs ih =>
      intro rest i h j sr st hsr hst
      match rest with
      | [] => exact h.elim
      | st0 :: sts =>
          obtain ⟨hstep, hcp, hrec⟩ := h
          match j with
          | 0 =>
              simp only [List.get?] at hsr hst
              obtain rfl := Option.some_injective _ hsr
              obtain rfl := Option.some_injective _ hst
              refine ⟨hstep, ?_⟩
              rw [Nat.add_zero]
              exact hcp
          | j + 1 =>
              have h2 := ih sts (i + 1) hrec j sr st hsr hst
              have harith : i + (j + 1) = i + 1 + j := by omega
              rw [harith]
              exact h2

/-- The run result and error do not depend on the checkpointer function's
outcomes nor on previously collected events — only the events stream
differs (`checkpoint.saved` versus `checkpoint.error`). -/
theorem runSteps_result_indep (ex : Executor) (ver : Option Verifier)
    (f g : Checkpointer) :
    ∀ (rest : List PipelineStep) (i : Nat) (cur : Envelope)
      (store : Option ContextStore) (clock : Nat) (ev1 ev2 : List PEvent)
      (acc : List StepResult) (total : Nat),
      (runSteps ex ver (some f) rest i cur store clock ev1 acc total).result =
        (runSteps ex ver (some g) rest i cur store clock ev2 acc total).result ∧
      (runSteps ex ver (some f) rest i cur store clock ev1 acc total).error =
        (runSteps ex ver (some g) rest i cur store clock ev2 acc total).error := by
  intro rest
  induction rest with
  | nil =>
      intro i cur store clock ev1 ev2 acc total
      exact ⟨rfl, rfl⟩
  | cons step rest ih =>
      intro i cur store clock ev1 ev2 acc total
      simp only [runSteps]
      generalize (ex step.command cur
          (match store with
           | some st => some (setStepScope st step i)
           | none => none)) = er
      rcases her : er.res with e | out
      · simp only [her]
        by_cases herr : (if step.onError = "" then "stop" else step.onError) = "skip"
        · simp only [if_pos herr]
          exact ih _ _ _ _ _ _ _ _
        · simp only [if_neg herr]
          constructor <;> trivial
      · simp only [her]
        match ver with
        | none =>
            exact ih _ _ _ _ _ _ _ _
        | some v =>
            dsimp only
            by_cases hpass : (v i (out.AddStep
                { command := step.command, args := step.args, timestamp := clock
                  duration := (er.delta : Int), status := "ok" })).1 = true
            · simp only [if_pos hpass]
              exact ih _ _ _ _ _ _ _ _
            · simp only [if_neg hpass]
              by_cases herr : (if step.onError = "" then "stop" else step.onError) = "skip"
              · simp only [if_pos herr]
                exact ih _ _ _ _ _ _ _ _
              · simp only [if_neg herr]
                constructor <;> trivial

/-- C10: For every pipeline with a configured checkpointer, a recorded
step result whose step has checkpoint_before=true carries
`CheckpointSaved = "step-<i>-<command>"` — set before the save outcome is
consulted, hence regardless of whether the checkpoint save succeeded or
failed; and the run's result and error are identical for any two
checkpointer outcome functions, so a failed save is distinguishable only
through the `checkpoint.error` event, never through the step results. -/
theorem checkpoint_saved_recorded_regardless :
    (∀ (p : Pipeline) (input : Envelope) (clock : Nat) (c : Checkpointer),
      p.checkpointer = some c →
      ∀ (j : Nat) (sr : StepResult) (st : PipelineStep),
        (p.Run input clock).result.steps.get? j = some sr →
        p.steps.get? j = some st →
        sr.step = st ∧
        (st.checkpointBefore = true → sr.checkpointSaved = cpName j st.command)) ∧
    (∀ (p : Pipeline) (input : Envelope) (clock : Nat) (f g : Checkpointer),
      (Pipeline.Run { p with checkpointer := some f } input clock).result =
        (Pipeline.Run { p with checkpointer := some g } input clock).result ∧
      (Pipeline.Run { p with checkpointer := some f } input clock).error =
        (Pipeline.Run { p with checkpointer := some g } input clock).error) := by
  constructor
  · intro p input clock c hcp j sr st hsr hst
    rcases hex : p.executor with _ | ex
    · unfold Pipeline.Run at hsr
      rw [hex] at hsr
      exact absurd hsr (by simp)
    · obtain ⟨tail, hsteps, hm⟩ := runSteps_steps_match ex p.verifier p.checkpointer
        p.steps 0 input p.context clock
        [{ etype := "pipeline.start"
           data := [("step_count", .num p.steps.length)]
           stepIndex := 0, duration := 0 }]
        [] p.steps.length
      unfold Pipeline.Run at hsr
      rw [hex] at hsr
      rw [hsteps, List.nil_append] at hsr
      have hidx := stepsMatch_get p.checkpointer.isSome tail p.steps 0 hm j sr st hsr hst
      refine ⟨hidx.1, fun hcb => ?_⟩
      rw [hidx.2]
      rw [hcp]
      simp [cpSavedName, hcb]
  · intro p input clock f g
    unfold Pipeline.Run
    dsimp only
    rcases hex : p.executor with _ | ex
    · exact ⟨rfl, rfl⟩
    · exact runSteps_result_indep ex p.verifier f g p.steps 0 input p.context clock _ _ []
        p.steps.length

/-- C10 witness: the two-step checkpointed pipeline run with an
always-failing checkpointer still records `step-1-write-cmd` in the
second step result, and its result equals the run with an
always-succeeding checkpointer. -/
theorem checkpoint_saved_recorded_regardless_witness :
    ((((checkpointPipe (fun _ => some "disk full")).Run provInput 0).result.steps.getD 1
        { step := { command := "", args := [], intent := "", onError := "",
                    checkpointBefore := false }
          output := Envelope.zero, error := "", duration := 0, status := ""
          verifyPassed := none, verifyMessage := "", checkpointSaved := "" }).checkpointSaved =
      cpName 1 "write-cmd") ∧
    ((checkpointPipe (fun _ => some "disk full")).Run provInput 0).result =
      ((checkpointPipe (fun _ => none)).Run provInput 0).result := by
  constructor
  · have h := checkpoint_saved_recorded_regardless.1
      (checkpointPipe (fun _ => some "disk full")) provInput 0 (fun _ => some "disk full")
      rfl 1 _ _ rfl rfl
    exact h.2 rfl
  · exact (checkpoint_saved_recorded_regardless.2
      { steps :=
          [{ command := "read-cmd", args := [], intent := "", onError := "",
             checkpointBefore := false },
           { command := "write-cmd", args := [], intent := "", onError := "",
             checkpointBefore := true }]
        context := none, executor := some freshExec, verifier := none
        checkpointer := none }
      provInput 0 (fun _ => some "disk full") (fun _ => none)).1

end Agsh
